/-
  Verification of the woodpecker-nc repository's core pure logic.

  Shallow embedding of:
  - src/code/presence_only.py : getPrecision, getF1, logModel, checkModelParams,
    checkModelLogs, getAllCombos, and the grid-search loop of batchMaxEnt
    (champion-model selection, checkpointing, pickle caching);
  - src/code/birds.py : Bird.__init__ (formatted_name / fc_name construction);
  - src/get_bird_data.py : clean_fw_data, getFeedWatcherData.

  Python floats are modelled as exact rationals together with a distinguished
  negative-infinity sentinel (the value the code returns on ZeroDivisionError).
  The filesystem (JSON logs, pickles, cached CSVs) is modelled as explicit
  state threaded through the functions; arcpy geoprocessing calls are
  abstracted as an environment that yields each parameter combination's
  sensitivity table.
-/
import Mathlib

namespace WoodpeckerNC

/-! ## Definitions -/

/-- A Python float as used by the scoring code: either a finite value
(modelled exactly as a rational) or the `-inf` sentinel returned on a
`ZeroDivisionError`. -/
inductive FVal where
  | neginf : FVal
  | val : ℚ → FVal
deriving DecidableEq, Repr

/-- Boolean order on `FVal`: `-inf` is below every value, and finite
values compare as rationals (how Python compares these floats). -/
def fle : FVal → FVal → Bool
  | FVal.neginf, _ => true
  | FVal.val _, FVal.neginf => false
  | FVal.val a, FVal.val b => decide (a ≤ b)

/-- Strict order on `FVal`, matching Python's `>` on the floats involved
(`f1 > best` is `flt best f1`). -/
def flt : FVal → FVal → Bool
  | FVal.neginf, FVal.neginf => false
  | FVal.neginf, FVal.val _ => true
  | FVal.val _, FVal.neginf => false
  | FVal.val a, FVal.val b => decide (a < b)

/-- Binary maximum on `FVal`, as realised by `if f1 > best: best = f1`. -/
def fmax (b f : FVal) : FVal := if flt b f then f else b

/-- Embedding of `getPrecision` (presence_only.py, lines 31-43):
`TP / (TP + FP)`, with `-inf` returned when the division raises
`ZeroDivisionError`, i.e. exactly when `TP + FP = 0`. -/
def getPrecision (TP FP : ℚ) : FVal :=
  if TP + FP = 0 then FVal.neginf else FVal.val (TP / (TP + FP))

/-- Embedding of `getF1` (presence_only.py, lines 45-59):
`2 * ((TP/(TP+FP)) * recallv) / ((TP/(TP+FP)) + recallv)`, with `-inf`
returned when either division raises `ZeroDivisionError`: the inner
division fails when `TP + FP = 0`, the outer one when the denominator
`TP/(TP+FP) + recallv = 0`. -/
def getF1 (TP FP recallv : ℚ) : FVal :=
  if TP + FP = 0 then FVal.neginf
  else if TP / (TP + FP) + recallv = 0 then FVal.neginf
  else FVal.val (2 * ((TP / (TP + FP)) * recallv) / ((TP / (TP + FP)) + recallv))

/-- A JSON-serialisable Python value as appearing in the parameter
dictionaries logged by the grid search: `None`, an integer, a string, or a
float (including the `-inf` sentinel). -/
inductive PVal where
  | null : PVal
  | nat : ℕ → PVal
  | str : String → PVal
  | f : FVal → PVal
deriving DecidableEq, Repr

/-- A Python dict, modelled as an association list (keys are unique in
every dict the code builds). -/
abbrev Dict : Type := List (String × PVal)

/-- `p[key]` lookup (first occurrence). -/
def dictGet (d : Dict) (k : String) : Option PVal :=
  (List.find? (fun kv => kv.1 == k) d).map (fun kv => kv.2)

/-- `key in p` membership test. -/
def dictHasKey (d : Dict) (k : String) : Bool :=
  List.any d (fun kv => kv.1 == k)

/-- Embedding of `logModel` (presence_only.py, lines 88-114) acting on the
contents of one log file: the file state is `Option (List Dict)` (`none`
when the file does not exist; the code then creates it holding `[]`); the
stored list is read, `params` is appended, and the result written back. -/
def logModel (params : Dict) (content : Option (List Dict)) : List Dict :=
  content.getD [] ++ [params]

/-- A log directory: file names paired with the JSON lists they store. -/
abbrev LogDir : Type := List (String × List Dict)

/-- Look up a file's stored list in a log directory. -/
def lookupLog (logs : LogDir) (fname : String) : Option (List Dict) :=
  (List.find? (fun f => f.1 == fname) logs).map (fun f => f.2)

/-- Effect of `logModel(params, log_file)` on the whole log directory:
the named file is created (holding `[params]`) if absent, otherwise its
stored list gets `params` appended; no other file is touched. -/
def writeLog (logs : LogDir) (fname : String) (entry : Dict) : LogDir :=
  if List.any logs (fun f => f.1 == fname) then
    List.map (fun f => if f.1 == fname then (f.1, logModel entry (some f.2)) else f) logs
  else logs ++ [(fname, logModel entry none)]

/-- Python's substring test `needle in hay`. -/
def containsSub (hay needle : String) : Bool :=
  (List.range (hay.toList.length + 1)).any
    (fun i => needle.toList.isPrefixOf (hay.toList.drop i))

/-- Embedding of `checkModelParams` (presence_only.py, lines 116-133): an
entry `p` of the log file matches `params` when every key of `params` that
is present in `p` has an equal value there, and every key of `p` other
than `f1` and `cutoff` is a key of `params`. -/
def checkModelParams (file_dict : List Dict) (params : Dict) : Bool :=
  List.any file_dict (fun p =>
    (List.all params (fun kv =>
      match dictGet p kv.1 with
      | none => true
      | some v => kv.2 == v))
    && (List.all p (fun kv =>
      kv.1 == "f1" || kv.1 == "cutoff" || dictHasKey params kv.1)))

/-- Embedding of `checkModelLogs` (presence_only.py, lines 136-153):
scans the files of the log directory whose name contains the species
string and returns `false` as soon as one of them holds a matching entry,
`true` otherwise (so `true` means "not yet run"). -/
def checkModelLogs (log_path : LogDir) (params : Dict) (species : String) : Bool :=
  !(List.any log_path (fun file => containsSub file.1 species && checkModelParams file.2 params))

/-- The parameter grid of `batchMaxEnt` (presence_only.py, lines 360-368):
fields in the dict's insertion order. -/
structure ParameterGrid where
  number_of_iterations : List ℕ
  basis_expansion_functions : List String
  relative_weight : List ℕ
  number_knots : List ℕ
  spatial_thinning : List String
  link_function : List String
  thinning_distance_band : List String
deriving DecidableEq, Repr

/-- One parameter combination: a 7-tuple in the grid's key order.
`number_of_iterations` and `thinning_distance_band` are `Option`s because
the `NO_THINNING` combinations carry Python `None` there. -/
@[ext]
structure Combo where
  number_of_iterations : Option ℕ
  basis_expansion_functions : String
  relative_weight : ℕ
  number_knots : ℕ
  spatial_thinning : String
  link_function : String
  thinning_distance_band : Option String
deriving DecidableEq, Repr

/-- The `NO_THINNING` block of `getAllCombos` (presence_only.py, lines
171-180 and 183-192): one tuple per element of
`itertools.product(basis_expansion_functions, relative_weight,
number_knots, link_function)`, with `None` iterations and distance band. -/
def noThinningCombos (g : ParameterGrid) : List Combo :=
  g.basis_expansion_functions.flatMap (fun b =>
    g.relative_weight.flatMap (fun w =>
      g.number_knots.flatMap (fun k =>
        g.link_function.map (fun l =>
          ⟨none, b, w, k, "NO_THINNING", l, none⟩))))

/-- The `THINNING` block of `getAllCombos` (presence_only.py, lines
194-202): the full product with `spatial_thinning` fixed to the singleton
list `["THINNING"]`. -/
def thinningCombos (g : ParameterGrid) : List Combo :=
  g.number_of_iterations.flatMap (fun i =>
    g.basis_expansion_functions.flatMap (fun b =>
      g.relative_weight.flatMap (fun w =>
        g.number_knots.flatMap (fun k =>
          (["THINNING"] : List String).flatMap (fun st =>
            g.link_function.flatMap (fun l =>
              g.thinning_distance_band.map (fun d =>
                ⟨some i, b, w, k, st, l, some d⟩)))))))

/-- `itertools.product(*parameter_grid.values())` (presence_only.py, line
168): the full product of all seven value lists in dict order. -/
def fullProductCombos (g : ParameterGrid) : List Combo :=
  g.number_of_iterations.flatMap (fun i =>
    g.basis_expansion_functions.flatMap (fun b =>
      g.relative_weight.flatMap (fun w =>
        g.number_knots.flatMap (fun k =>
          g.spatial_thinning.flatMap (fun st =>
            g.link_function.flatMap (fun l =>
              g.thinning_distance_band.map (fun d =>
                ⟨some i, b, w, k, st, l, some d⟩)))))))

/-- Embedding of `getAllCombos` (presence_only.py, lines 156-205). -/
def getAllCombos (g : ParameterGrid) : List Combo :=
  if "NO_THINNING" ∉ g.spatial_thinning then
    fullProductCombos g
  else if "THINNING" ∉ g.spatial_thinning then
    noThinningCombos g
  else
    noThinningCombos g ++ thinningCombos g

/-- A small concrete grid containing both thinning modes, used by
witnesses. -/
def comboGridExample : ParameterGrid :=
  ⟨[10, 20], ["HINGE", "LINEAR"], [35], [10],
   ["NO_THINNING", "THINNING"], ["CLOGLOG"], ["1000 Meters"]⟩

/-- The literal `parameter_grid` dict of `batchMaxEnt` (presence_only.py,
lines 360-368). -/
def batchParameterGrid : ParameterGrid :=
  ⟨[10, 20], ["HINGE", "LINEAR", "THRESHOLD", "QUADRATIC"], [35, 50, 100], [10, 50],
   ["NO_THINNING", "THINNING"], ["CLOGLOG"], ["1000 Meters", "2500 Meters"]⟩

/-- One row of the sensitivity table produced by a MaxEnt run, in the
column order read by `scoreFromSensitivityTable` (presence_only.py, lines
61-85): CUTOFF, FPR, TPR, FNR, TNR, SENSE, SPEC. -/
structure SensRow where
  cutoff : ℚ
  FP : ℚ
  TP : ℚ
  FN : ℚ
  TN : ℚ
  recallv : ℚ
  specificity : ℚ
deriving DecidableEq, Repr

/-- The `f1` column computed per row by `scoreFromSensitivityTable`. -/
def rowF1 (r : SensRow) : FVal := getF1 r.TP r.FP r.recallv

/-- `max(score.f1)` (presence_only.py, line 419): the maximum of the `f1`
column of the sensitivity table (the table is nonempty whenever the
MaxEnt run produced one). -/
def scoreF1 (rows : List SensRow) : FVal :=
  (rows.map rowF1).foldl fmax FVal.neginf

/-- `score.loc[score.f1.idxmax(), 'cutoff']` (presence_only.py, lines
420-421): the cutoff of the first row attaining the maximum f1. -/
def cutoffAtMax (rows : List SensRow) : ℚ :=
  ((rows.find? (fun r => rowF1 r == scoreF1 rows)).map (fun r => r.cutoff)).getD 0

/-- Python's `round(x, 2)` used on the best cutoff before logging. -/
def round2 (q : ℚ) : ℚ := (round (q * 100) : ℤ) / 100

/-- Python `None`-or-int as a JSON value. -/
def optNatP (o : Option ℕ) : PVal := o.elim PVal.null PVal.nat

/-- Python `None`-or-string as a JSON value. -/
def optStrP (o : Option String) : PVal := o.elim PVal.null PVal.str

/-- `params = dict(zip(parameter_grid.keys(), combination))`
(presence_only.py, line 391): the parameter dict of a combination, keyed
in the grid's insertion order. -/
def paramsOfCombo (c : Combo) : Dict :=
  [("number_of_iterations", optNatP c.number_of_iterations),
   ("basis_expansion_functions", PVal.str c.basis_expansion_functions),
   ("relative_weight", PVal.nat c.relative_weight),
   ("number_knots", PVal.nat c.number_knots),
   ("spatial_thinning", PVal.str c.spatial_thinning),
   ("link_function", PVal.str c.link_function),
   ("thinning_distance_band", optStrP c.thinning_distance_band)]

/-- The part of a species' `model_data` pickle that the grid search reads
back: the champion combination and its f1 score, plus the best cutoff
(presence_only.py, lines 443-456 write it, lines 378-383 read it). -/
structure PickleData where
  combination : Combo
  f1 : FVal
  cutoff : ℚ
deriving DecidableEq, Repr

/-- The state threaded through one species' grid-search loop: the
champion variables of `batchMaxEnt`, the on-disk log directory and pickle,
and instrumentation (which combinations were trained this run, how many
times the pickle file was written). -/
structure LoopState where
  best_combination : Option Combo
  best_evaluation_metric : FVal
  pickle : Option PickleData
  logs : LogDir
  trained : List Combo
  pickleWrites : ℕ
deriving DecidableEq, Repr

/-- Champion-state initialisation (presence_only.py, lines 373-387): on
resume the cached pickle's combination and f1, on a fresh run `None` and
`0.0`. -/
def gridInit (cached : Option PickleData) (logs : LogDir) : LoopState :=
  match cached with
  | some md => ⟨some md.combination, md.f1, some md, logs, [], 0⟩
  | none => ⟨none, FVal.val 0, none, logs, [], 0⟩

/-- One iteration of the grid-search loop of `batchMaxEnt`
(presence_only.py, lines 390-456) for combination `c` of species `s`.
`env c` is the sensitivity table the MaxEnt run produces for `c`. If the
combination is already logged the iteration does nothing; otherwise the
model is trained and scored, the parameters (with `f1` and the rounded
cutoff) are appended to the species' log file, and the champion state and
pickle are replaced exactly when the new f1 strictly exceeds the best so
far. -/
def gridStep (env : Combo → List SensRow) (s : String) (st : LoopState) (c : Combo) :
    LoopState :=
  let params := paramsOfCombo c
  if checkModelLogs st.logs params s then
    let table := env c
    let f1 := scoreF1 table
    let entry := params ++ [("f1", PVal.f f1),
                            ("cutoff", PVal.f (FVal.val (round2 (cutoffAtMax table))))]
    let logs' := writeLog st.logs (s ++ "_model_log.json") entry
    if flt st.best_evaluation_metric f1 then
      { best_combination := some c
        best_evaluation_metric := f1
        pickle := some ⟨c, f1, cutoffAtMax table⟩
        logs := logs'
        trained := st.trained ++ [c]
        pickleWrites := st.pickleWrites + 1 }
    else
      { st with logs := logs', trained := st.trained ++ [c] }
  else st

/-- The whole grid-search loop: fold `gridStep` over the combinations. -/
def runGrid (env : Combo → List SensRow) (s : String) (st : LoopState)
    (combos : List Combo) : LoopState :=
  combos.foldl (gridStep env s) st

/-- The per-species body of `batchMaxEnt` (presence_only.py, lines
325-487): if the species' trained-features output is already a feature
class of the workspace, nothing is done (only a message is printed);
otherwise the grid search runs and the champion model is re-run once with
outputs enabled (reading the pickle, which must exist — `none` models the
uncaught `FileNotFoundError` otherwise). The second component counts the
MaxEnt invocations performed. -/
def processSpecies (env : Combo → List SensRow) (featureClasses : List String)
    (s : String) (g : ParameterGrid) (cached : Option PickleData) (logs : LogDir) :
    Option (LoopState × ℕ) :=
  if (s ++ "_NC_Trained_Features") ∈ featureClasses then
    some (gridInit cached logs, 0)
  else
    let st := runGrid env s (gridInit cached logs) (getAllCombos g)
    match st.pickle with
    | some _ => some (st, st.trained.length + 1)
    | none => none

/-- A concrete combination, used by witnesses. -/
def comboExample : Combo := ⟨none, "HINGE", 35, 10, "NO_THINNING", "CLOGLOG", none⟩

/-- A concrete environment: every combination's sensitivity table is one
row with TP = 1, FP = 1, recall = 1 (f1 = 2/3). -/
def envExample : Combo → List SensRow := fun _ => [⟨1/2, 1, 1, 0, 0, 1, 1⟩]

/-- A row of the species-codes dataframe (`get_species_codes` output /
the `birds` argument): species_code, species_name, family. -/
structure SpeciesRow where
  species_code : String
  species_name : String
  family : String
deriving DecidableEq, Repr

/-- The attributes a `Bird` object carries after `Bird.__init__`
(birds.py, lines 75-99). -/
structure BirdData where
  code : String
  name : String
  family : String
  formatted_name : String
  fc_name : String
deriving DecidableEq, Repr

/-- Python's `name.split(', ')` on the character list: non-overlapping
leftmost matches of the two-character separator. -/
def splitCS : List Char → List (List Char)
  | [] => [[]]
  | ',' :: ' ' :: rest => [] :: splitCS rest
  | c :: rest =>
    match splitCS rest with
    | [] => [[c]]
    | h :: t => (c :: h) :: t

/-- `name.split(', ')` as a string operation. -/
def birdSplit (s : String) : List String :=
  (splitCS s.toList).map (fun l => String.mk l)

/-- `re.sub("[()]", "", x).replace(" ", "_").replace("-", "_")`
(birds.py, lines 97-98): delete parentheses, then turn every space and
hyphen into an underscore. -/
def fmtChars (s : String) : String :=
  String.mk ((s.toList.filter (fun ch => ch != '(' && ch != ')')).map
    (fun ch => if ch = ' ' ∨ ch = '-' then '_' else ch))

/-- Embedding of `Bird.__init__` (birds.py, lines 75-99): select the
first dataframe row whose species_name equals `bird_name` (an empty
selection makes the `[0]` indexing raise `IndexError`, modelled as
`none`); split the name on `", "` (a list without a second part makes
`name_parts[1]` raise `IndexError`); build `formatted_name` from
`parts[1] + "_" + parts[0]` and `fc_name` as
`_prefix + formatted_name + "_NC"`. -/
def birdInit (df : List SpeciesRow) (bird_name : String) (pre : String) :
    Option BirdData :=
  match df.filter (fun r => r.species_name == bird_name) with
  | [] => none
  | r :: _ =>
    match birdSplit r.species_name with
    | p0 :: p1 :: _ =>
      some ⟨r.species_code, r.species_name, r.family, fmtChars (p1 ++ "_" ++ p0),
        pre ++ fmtChars (p1 ++ "_" ++ p0) ++ "_NC"⟩
    | _ => none

/-- A raw FeederWatch data row, restricted to the fields `clean_fw_data`
reads (get_bird_data.py, lines 50-76). Fields pandas may hold as NaN are
`Option`s (`none` = NaN). -/
structure FWRow where
  species_code : Option String
  how_many : ℚ
  latitude : ℚ
  longitude : ℚ
  subnational1_code : Option String
  valid : Option ℚ
  plus_code : Option ℚ
  year : ℕ
  month : ℕ
  day : ℕ
deriving DecidableEq, Repr

/-- The date assembled by `pd.to_datetime(dict(year, month, day))`. -/
@[ext]
structure DateT where
  year : ℕ
  month : ℕ
  day : ℕ
deriving DecidableEq, Repr

/-- A row of the cleaned dataframe: exactly the `out_names` columns of
`clean_fw_data`, in their output order (species_code, species_name,
how_many, latitude, longitude, subnational1_code, date). `species_name`
is an `Option` because a left merge without a match stores NaN. -/
structure CleanRow where
  species_code : Option String
  species_name : Option String
  how_many : ℚ
  latitude : ℚ
  longitude : ℚ
  subnational1_code : Option String
  date : DateT
deriving DecidableEq, Repr

/-- Strict chronological order on dates (lexicographic on
year, month, day — the order of the valid datetimes pandas builds). -/
def dateLtP (a b : DateT) : Prop :=
  a.year < b.year ∨ (a.year = b.year ∧
    (a.month < b.month ∨ (a.month = b.month ∧ a.day < b.day)))

instance (a b : DateT) : Decidable (dateLtP a b) := by
  unfold dateLtP
  infer_instance

/-- Lexicographic (code-point) order on strings as character lists —
Python's string comparison used by the sort. -/
def strLeB : List Char → List Char → Bool
  | [], _ => true
  | _ :: _, [] => false
  | x :: xs, y :: ys => if x = y then strLeB xs ys else decide (x < y)

/-- Sort key order on the (possibly NaN) species_name column: pandas puts
NaN last (`na_position='last'`). -/
def optStrLeB : Option String → Option String → Bool
  | none, none => true
  | none, some _ => false
  | some _, none => true
  | some a, some b => strLeB a.toList b.toList

/-- The `sort_values(by=['date', 'species_name'], ascending=[True, True])`
order (get_bird_data.py, line 76). -/
def rowLe (a b : CleanRow) : Prop :=
  dateLtP a.date b.date ∨
    (a.date = b.date ∧ optStrLeB a.species_name b.species_name = true)

instance : DecidableRel rowLe := fun a b => by
  unfold rowLe
  infer_instance

instance : IsTrans CleanRow rowLe where
  trans := by
    have hstr : ∀ a b c : List Char,
        strLeB a b = true → strLeB b c = true → strLeB a c = true := by
      intro a
      induction a with
      | nil => intro b c _ _; rfl
      | cons x xs ih =>
        intro b c hab hbc
        cases b with
        | nil => simp [strLeB] at hab
        | cons y ys =>
          cases c with
          | nil => simp [strLeB] at hbc
          | cons z zs =>
            by_cases hxy : x = y
            · by_cases hyz : y = z
              · have hxz : x = z := hxy.trans hyz
                simp only [strLeB, if_pos hxy] at hab
                simp only [strLeB, if_pos hyz] at hbc
                simp only [strLeB, if_pos hxz]
                exact ih ys zs hab hbc
              · simp only [strLeB, if_neg hyz] at hbc
                have hlt : y < z := of_decide_eq_true hbc
                have hxz : x < z := lt_of_eq_of_lt hxy hlt
                have hne : x ≠ z := ne_of_lt hxz
                simp only [strLeB, if_neg hne]
                exact decide_eq_true hxz
            · simp only [strLeB, if_neg hxy] at hab
              have hlt : x < y := of_decide_eq_true hab
              by_cases hyz : y = z
              · have hxz : x < z := lt_of_lt_of_eq hlt hyz
                have hne : x ≠ z := ne_of_lt hxz
                simp only [strLeB, if_neg hne]
                exact decide_eq_true hxz
              · simp only [strLeB, if_neg hyz] at hbc
                have hlt2 : y < z := of_decide_eq_true hbc
                have hxz : x < z := lt_trans hlt hlt2
                have hne : x ≠ z := ne_of_lt hxz
                simp only [strLeB, if_neg hne]
                exact decide_eq_true hxz
    intro a b c hab hbc
    rcases hab with hab | ⟨hab, hnab⟩
    · rcases hbc with hbc | ⟨hbc, _⟩
      · left
        unfold dateLtP at *
        omega
      · left
        rw [← hbc]
        exact hab
    · rcases hbc with hbc | ⟨hbc, hnbc⟩
      · left
        rw [hab]
        exact hbc
      · right
        refine ⟨hab.trans hbc, ?_⟩
        cases hna : a.species_name with
        | none =>
          rw [hna] at hnab
          cases hnc : c.species_name with
          | none => rfl
          | some sc =>
            cases hnb : b.species_name with
            | none =>
              rw [hnb, hnc] at hnbc
              simp [optStrLeB] at hnbc
            | some sb =>
              rw [hnb] at hnab
              simp [optStrLeB] at hnab
        | some sa =>
          rw [hna] at hnab
          cases hnc : c.species_name with
          | none => rfl
          | some sc =>
            cases hnb : b.species_name with
            | none =>
              rw [hnb, hnc] at hnbc
              simp [optStrLeB] at hnbc
            | some sb =>
              rw [hnb] at hnab
              rw [hnb, hnc] at hnbc
              exact hstr sa.toList sb.toList sc.toList hnab hnbc

instance : IsTotal CleanRow rowLe where
  total := by
    have hstr : ∀ a b : List Char, strLeB a b = true ∨ strLeB b a = true := by
      intro a
      induction a with
      | nil => intro b; left; rfl
      | cons x xs ih =>
        intro b
        cases b with
        | nil => right; rfl
        | cons y ys =>
          by_cases hxy : x = y
          · rcases ih ys with h | h
            · left; simp only [strLeB, if_pos hxy]; exact h
            · right; simp only [strLeB, if_pos hxy.symm]; exact h
          · rcases lt_or_gt_of_ne hxy with h | h
            · left
              simp only [strLeB, if_neg hxy]
              exact decide_eq_true h
            · right
              have hne : y ≠ x := fun he => hxy he.symm
              simp only [strLeB, if_neg hne]
              exact decide_eq_true h
    intro a b
    by_cases hd : a.date = b.date
    · cases hna : a.species_name with
      | none =>
        cases hnb : b.species_name with
        | none => left; right; exact ⟨hd, by rw [hna, hnb]; rfl⟩
        | some sb => right; right; exact ⟨hd.symm, by rw [hna, hnb]; rfl⟩
      | some sa =>
        cases hnb : b.species_name with
        | none => left; right; exact ⟨hd, by rw [hna, hnb]; rfl⟩
        | some sb =>
          rcases hstr sa.toList sb.toList with h | h
          · left; right; exact ⟨hd, by rw [hna, hnb]; exact h⟩
          · right; right; exact ⟨hd.symm, by rw [hna, hnb]; exact h⟩
    · have : dateLtP a.date b.date ∨ dateLtP b.date a.date := by
        cases ha : a.date
        cases hb : b.date
        rw [ha, hb] at hd
        simp only [DateT.mk.injEq] at hd
        unfold dateLtP
        simp only
        omega
      rcases this with h | h
      · left; left; exact h
      · right; left; exact h

/-- Build one output row of `clean_fw_data` from a source row and the
species_name obtained by the left merge with `birds`. -/
def mkCleanRow (r : FWRow) (nm : Option String) : CleanRow :=
  ⟨r.species_code, nm, r.how_many, r.latitude, r.longitude, r.subnational1_code,
   ⟨r.year, r.month, r.day⟩⟩

/-- The `valid == 1 & plus_code != 1 & species_code == @birds...` query of
`clean_fw_data` (get_bird_data.py, line 65), with pandas NaN semantics:
NaN == 1 is false, NaN != 1 is true, NaN is in no list. -/
def validFilter (r : FWRow) (birds : List SpeciesRow) : Bool :=
  (match r.valid with
    | some v => v == 1
    | none => false)
  && (match r.plus_code with
    | some v => v != 1
    | none => true)
  && (match r.species_code with
    | some cd => birds.any (fun b => b.species_code == cd)
    | none => false)

/-- Embedding of `clean_fw_data` (get_bird_data.py, lines 37-76): filter
by validity, plus_code, species list; optionally filter by
subnational1_code membership (skipped only when the argument is `None`,
i.e. `none`); left-merge with `birds` on species_code to obtain
species_name; keep the output columns; sort by date then species_name.
The Python default for `sub_national_code` is the empty list, i.e.
`some []`. -/
def clean_fw_data (data : List FWRow) (birds : List SpeciesRow)
    (sub_national_code : Option (List String)) : List CleanRow :=
  let filtered := data.filter (fun r => validFilter r birds)
  let located :=
    match sub_national_code with
    | none => filtered
    | some codes => filtered.filter (fun r =>
        match r.subnational1_code with
        | some c => codes.contains c
        | none => false)
  let merged := located.flatMap (fun r =>
    let ms := birds.filter (fun b =>
      match r.species_code with
      | some cd => b.species_code == cd
      | none => false)
    if ms.isEmpty then [mkCleanRow r none]
    else ms.map (fun b => mkCleanRow r (some b.species_name)))
  List.insertionSort rowLe merged

/-- The result of a `getFeedWatcherData` call together with its
filesystem effects: the returned dataframe, the per-timeframe gzipped
csvs written, the final csv written, and the timeframes downloaded from
the remote URL. -/
structure FWResult where
  out : List CleanRow
  savedTf : List (String × List CleanRow)
  savedFinal : Option (List CleanRow)
  downloaded : List String
deriving DecidableEq, Repr

/-- Accumulator of the per-timeframe loop: rows collected so far, files
written, timeframes downloaded. -/
abbrev FWAcc : Type := List CleanRow × List (String × List CleanRow) × List String

/-- One iteration of the timeframe loop of `getFeedWatcherData`
(get_bird_data.py, lines 116-137): on a cache miss the URL data is read
and cleaned (and saved when `save_` is set); on a hit the cached file is
read back; either way the rows are appended. -/
def fwStep (env : String → List FWRow) (tfFile : String → Option (List CleanRow))
    (birds : List SpeciesRow) (sub : Option (List String)) (save_ : Bool)
    (acc : FWAcc) (tf : String) : FWAcc :=
  match tfFile tf with
  | none =>
    let data := clean_fw_data (env tf) birds sub
    (acc.1 ++ data, acc.2.1 ++ (if save_ then [(tf, data)] else []), acc.2.2 ++ [tf])
  | some cached => (acc.1 ++ cached, acc.2.1, acc.2.2)

/-- Embedding of `getFeedWatcherData` (get_bird_data.py, lines 78-147):
if the final output file exists it is read and returned with no
downloading or filtering; otherwise each timeframe is fetched (from its
cached file when present), the rows are concatenated, filtered to
`min_year <= date.year <= max_year`, and written to the final file. -/
def getFeedWatcherData (env : String → List FWRow)
    (tfFile : String → Option (List CleanRow)) (finalFile : Option (List CleanRow))
    (tfs : List String) (birds : List SpeciesRow) (sub : Option (List String))
    (save_ : Bool) (min_year max_year : ℕ) : FWResult :=
  match finalFile with
  | some content => ⟨content, [], none, []⟩
  | none =>
    let res := tfs.foldl (fwStep env tfFile birds sub save_) ([], [], [])
    let filtered := (res.1.filter (fun r => decide (min_year ≤ r.date.year))).filter
      (fun r => decide (r.date.year ≤ max_year))
    ⟨filtered, res.2.1, some filtered, res.2.2⟩

/-- A concrete raw row used by witnesses: a valid Downy Woodpecker
observation in North Carolina on 2018-03-14. -/
def fwRowExample : FWRow :=
  ⟨some "dowwoo", 2, 35, -78, some "US-NC", some 1, none, 2018, 3, 14⟩

/-- A concrete species table used by witnesses. -/
def birdsExample : List SpeciesRow := [⟨"dowwoo", "Woodpecker, Downy", "Picidae"⟩]

/-! ## Theorems -/

theorem fmax_eq_left_or_right (b f : FVal) : fmax b f = b ∨ fmax b f = f := by
  unfold fmax
  by_cases h : flt b f = true
  · simp [h]
  · simp [h]

theorem fle_refl (a : FVal) : fle a a = true := by
  cases a with
  | neginf => rfl
  | val q => simp [fle]

theorem fle_trans {a b c : FVal} (h1 : fle a b = true) (h2 : fle b c = true) :
    fle a c = true := by
  cases a <;> cases b <;> cases c <;> simp [fle] at *
  linarith

theorem fle_total (a b : FVal) : fle a b = true ∨ fle b a = true := by
  cases a <;> cases b <;> simp [fle] at *
  exact le_total _ _

theorem flt_iff_not_fle {a b : FVal} : flt a b = true ↔ ¬ (fle b a = true) := by
  cases a <;> cases b <;> simp [flt, fle] at *

theorem fle_fmax_left (b f : FVal) : fle b (fmax b f) = true := by
  unfold fmax
  by_cases h : flt b f = true
  · simp only [h, if_true]
    rcases fle_total b f with h1 | h1
    · exact h1
    · exact absurd h1 (flt_iff_not_fle.mp h)
  · simp [h, fle_refl]

theorem fle_fmax_right (b f : FVal) : fle f (fmax b f) = true := by
  unfold fmax
  by_cases h : flt b f = true
  · simp [h, fle_refl]
  · simp only [h, if_false, Bool.false_eq_true, ite_false]
    rcases fle_total f b with h1 | h1
    · exact h1
    · by_cases h2 : fle f b = true
      · exact h2
      · exact absurd (flt_iff_not_fle.mpr h2) (by simp [h])

theorem writeLog_cons_ne (hd : String × List Dict) (tl : LogDir) (fname : String)
    (entry : Dict) (h : hd.1 ≠ fname) :
    writeLog (hd :: tl) fname entry = hd :: writeLog tl fname entry := by
  unfold writeLog
  have hbeq : (hd.1 == fname) = false := by
    simp [h]
  by_cases hany : List.any tl (fun f => f.1 == fname) = true
  · simp [List.any_cons, hbeq, hany, h]
  · simp [List.any_cons, hbeq, hany, h]

theorem writeLog_cons_eq (hd : String × List Dict) (tl : LogDir) (entry : Dict) :
    writeLog (hd :: tl) hd.1 entry =
      (hd.1, logModel entry (some hd.2)) ::
        List.map (fun f => if f.1 == hd.1 then (f.1, logModel entry (some f.2)) else f) tl := by
  unfold writeLog
  simp [List.any_cons]

theorem lookupLog_map_upd_ne (tl : LogDir) (fname g : String) (entry : Dict)
    (h : g ≠ fname) :
    lookupLog (List.map (fun f => if f.1 == fname then (f.1, logModel entry (some f.2)) else f) tl) g
      = lookupLog tl g := by
  induction tl with
  | nil => rfl
  | cons hd tl ih =>
    by_cases h1 : hd.1 = fname
    · have hbeq : (hd.1 == fname) = true := by simp [h1]
      have hg : (hd.1 == g) = false := by simp [h1]; exact fun he => h he.symm
      simp only [List.map_cons, hbeq, if_true, lookupLog, List.find?_cons, hg]
      exact ih
    · have hbeq : (hd.1 == fname) = false := by simp [h1]
      by_cases h2 : hd.1 = g
      · have hg : (hd.1 == g) = true := by simp [h2]
        simp only [List.map_cons, lookupLog, List.find?_cons, hbeq, Bool.false_eq_true,
          if_false, hg]
      · have hg : (hd.1 == g) = false := by simp [h2]
        simp only [List.map_cons, hbeq, Bool.false_eq_true, if_false, lookupLog,
          List.find?_cons, hg]
        exact ih

/-- C3: on-disk log appending is preserving. For every parameter
dictionary and log-file path, after `logModel(params, log_file)` the file
stores the previously stored list (empty if the file did not exist) with
`params` appended as the final element: previously logged entries are
unchanged (the old list is a prefix), the length grows by exactly one, and
every other file of the directory is untouched. -/
theorem C3_logModel_appends (logs : LogDir) (fname : String) (params : Dict) :
    (lookupLog (writeLog logs fname params) fname
        = some ((lookupLog logs fname).getD [] ++ [params]))
    ∧ (logModel params (lookupLog logs fname)).length
        = ((lookupLog logs fname).getD []).length + 1
    ∧ (logModel params (lookupLog logs fname)).take ((lookupLog logs fname).getD []).length
        = (lookupLog logs fname).getD []
    ∧ (logModel params (lookupLog logs fname)).getLast? = some params
    ∧ (∀ g, g ≠ fname → lookupLog (writeLog logs fname params) g = lookupLog logs g) := by
  refine ⟨?_, by simp [logModel], by simp [logModel], by simp [logModel], ?_⟩
  · induction logs with
    | nil =>
      simp [writeLog, lookupLog, logModel]
    | cons hd tl ih =>
      by_cases h1 : hd.1 = fname
      · have hbeq : (hd.1 == fname) = true := by simp [h1]
        rw [← h1, writeLog_cons_eq]
        simp [lookupLog, List.find?_cons, hbeq, h1, logModel]
      · have hbeq : (hd.1 == fname) = false := by simp [h1]
        rw [writeLog_cons_ne hd tl fname params h1]
        simp only [lookupLog, List.find?_cons, hbeq, Bool.false_eq_true, if_false]
        exact ih
  · intro g hg
    induction logs with
    | nil =>
      have hbeq : (fname == g) = false := by simp; exact fun he => hg he.symm
      simp [writeLog, lookupLog, List.find?_cons, hbeq]
    | cons hd tl ih =>
      by_cases h1 : hd.1 = fname
      · have hg1 : (hd.1 == g) = false := by simp [h1]; exact fun he => hg he.symm
        rw [← h1, writeLog_cons_eq]
        simp only [lookupLog, List.find?_cons, hg1, Bool.false_eq_true, if_false]
        rw [h1]
        exact lookupLog_map_upd_ne tl fname g params hg
      · rw [writeLog_cons_ne hd tl fname params h1]
        by_cases h2 : hd.1 = g
        · simp [lookupLog, List.find?_cons, h2]
        · have hg1 : (hd.1 == g) = false := by simp [h2]
          simp only [lookupLog, List.find?_cons, hg1, Bool.false_eq_true, if_false]
          exact ih

/-- Witness for C3 at a concrete directory: one existing file, appending to
it, and checking a distinct file is unchanged. -/
theorem C3_logModel_appends_witness :
    lookupLog (writeLog [("a_log.json", [[("x", PVal.nat 1)]])] "a_log.json" [("x", PVal.nat 2)])
        "a_log.json"
      = some ([[("x", PVal.nat 1)]] ++ [[("x", PVal.nat 2)]])
    ∧ lookupLog (writeLog [("a_log.json", [[("x", PVal.nat 1)]])] "a_log.json" [("x", PVal.nat 2)])
        "b_log.json"
      = lookupLog [("a_log.json", [[("x", PVal.nat 1)]])] "b_log.json" := by
  have h := C3_logModel_appends [("a_log.json", [[("x", PVal.nat 1)]])] "a_log.json"
    [("x", PVal.nat 2)]
  refine ⟨?_, h.2.2.2.2 "b_log.json" (by decide)⟩
  · have h1 := h.1
    simpa [lookupLog, List.find?_cons] using h1

/-- C5: arithmetic scoring with a zero-division sentinel. `getPrecision`
returns `TP/(TP+FP)` when `TP+FP` is nonzero and `-inf` exactly when the
division fails; `getF1` returns the F1 formula when both divisions succeed
and `-inf` exactly when either fails; both functions are total (never
raise). -/
theorem C5_scoring_sentinel (TP FP recallv : ℚ) :
    (TP + FP ≠ 0 → getPrecision TP FP = FVal.val (TP / (TP + FP)))
    ∧ (getPrecision TP FP = FVal.neginf ↔ TP + FP = 0)
    ∧ (TP + FP ≠ 0 → TP / (TP + FP) + recallv ≠ 0 →
        getF1 TP FP recallv =
          FVal.val (2 * ((TP / (TP + FP)) * recallv) / ((TP / (TP + FP)) + recallv)))
    ∧ (getF1 TP FP recallv = FVal.neginf ↔
        (TP + FP = 0 ∨ TP / (TP + FP) + recallv = 0)) := by
  refine ⟨?_, ?_, ?_, ?_⟩
  · intro h; simp [getPrecision, h]
  · constructor
    · intro h
      by_contra hne
      simp [getPrecision, hne] at h
    · intro h; simp [getPrecision, h]
  · intro h1 h2; simp [getF1, h1, h2]
  · constructor
    · intro h
      by_cases h1 : TP + FP = 0
      · exact Or.inl h1
      · by_cases h2 : TP / (TP + FP) + recallv = 0
        · exact Or.inr h2
        · simp [getF1, h1, h2] at h
    · intro h
      rcases h with h | h
      · simp [getF1, h]
      · by_cases h1 : TP + FP = 0
        · simp [getF1, h1]
        · simp [getF1, h1, h]

/-- Witness for C5 at concrete inputs `TP = 1, FP = 1, recallv = 1/2`. -/
theorem C5_scoring_sentinel_witness :
    ((1 : ℚ) + 1 ≠ 0 ∧ getPrecision 1 1 = FVal.val ((1 : ℚ) / (1 + 1)))
    ∧ (getF1 1 1 (1/2) =
        FVal.val (2 * (((1 : ℚ) / (1 + 1)) * (1/2)) / (((1 : ℚ) / (1 + 1)) + (1/2)))) := by
  have h := C5_scoring_sentinel 1 1 (1/2)
  refine ⟨⟨by norm_num, h.1 (by norm_num)⟩, h.2.2.1 (by norm_num) (by norm_num)⟩

theorem length_flatMap_const {α β : Type} (l : List α) (f : α → List β) (c : ℕ)
    (h : ∀ a ∈ l, (f a).length = c) : (l.flatMap f).length = l.length * c := by
  induction l with
  | nil => simp
  | cons hd tl ih =>
    simp only [List.flatMap_cons, List.length_append, List.length_cons]
    rw [h hd (by simp), ih (fun a ha => h a (by simp [ha]))]
    ring

theorem noThinningCombos_length (g : ParameterGrid) :
    (noThinningCombos g).length =
      g.basis_expansion_functions.length * g.relative_weight.length *
        g.number_knots.length * g.link_function.length := by
  unfold noThinningCombos
  rw [length_flatMap_const _ _
    (g.relative_weight.length * (g.number_knots.length * g.link_function.length))]
  · ring
  · intro b _
    rw [length_flatMap_const _ _ (g.number_knots.length * g.link_function.length)]
    intro w _
    rw [length_flatMap_const _ _ g.link_function.length]
    intro k _
    simp

theorem thinningCombos_length (g : ParameterGrid) :
    (thinningCombos g).length =
      g.number_of_iterations.length * g.basis_expansion_functions.length *
        g.relative_weight.length * g.number_knots.length *
        g.link_function.length * g.thinning_distance_band.length := by
  unfold thinningCombos
  rw [length_flatMap_const _ _
    (g.basis_expansion_functions.length * (g.relative_weight.length *
      (g.number_knots.length * (g.link_function.length * g.thinning_distance_band.length))))]
  · ring
  · intro i _
    rw [length_flatMap_const _ _ (g.relative_weight.length *
      (g.number_knots.length * (g.link_function.length * g.thinning_distance_band.length)))]
    intro b _
    rw [length_flatMap_const _ _
      (g.number_knots.length * (g.link_function.length * g.thinning_distance_band.length))]
    intro w _
    rw [length_flatMap_const _ _ (g.link_function.length * g.thinning_distance_band.length)]
    intro k _
    simp only [List.flatMap_cons, List.flatMap_nil, List.append_nil]
    rw [length_flatMap_const _ _ g.thinning_distance_band.length]
    intro l _
    simp

theorem fullProductCombos_length (g : ParameterGrid) :
    (fullProductCombos g).length =
      g.number_of_iterations.length * g.basis_expansion_functions.length *
        g.relative_weight.length * g.number_knots.length *
        g.spatial_thinning.length * g.link_function.length *
        g.thinning_distance_band.length := by
  unfold fullProductCombos
  rw [length_flatMap_const _ _
    (g.basis_expansion_functions.length * (g.relative_weight.length *
      (g.number_knots.length * (g.spatial_thinning.length *
        (g.link_function.length * g.thinning_distance_band.length)))))]
  · ring
  · intro i _
    rw [length_flatMap_const _ _ (g.relative_weight.length *
      (g.number_knots.length * (g.spatial_thinning.length *
        (g.link_function.length * g.thinning_distance_band.length))))]
    intro b _
    rw [length_flatMap_const _ _
      (g.number_knots.length * (g.spatial_thinning.length *
        (g.link_function.length * g.thinning_distance_band.length)))]
    intro w _
    rw [length_flatMap_const _ _ (g.spatial_thinning.length *
      (g.link_function.length * g.thinning_distance_band.length))]
    intro k _
    rw [length_flatMap_const _ _ (g.link_function.length * g.thinning_distance_band.length)]
    intro st _
    rw [length_flatMap_const _ _ g.thinning_distance_band.length]
    intro l _
    simp

theorem mem_noThinningCombos (g : ParameterGrid) (c : Combo) :
    c ∈ noThinningCombos g ↔
      (c.number_of_iterations = none ∧ c.spatial_thinning = "NO_THINNING"
        ∧ c.thinning_distance_band = none
        ∧ c.basis_expansion_functions ∈ g.basis_expansion_functions
        ∧ c.relative_weight ∈ g.relative_weight
        ∧ c.number_knots ∈ g.number_knots
        ∧ c.link_function ∈ g.link_function) := by
  unfold noThinningCombos
  simp only [List.mem_flatMap, List.mem_map]
  constructor
  · rintro ⟨b, hb, w, hw, k, hk, l, hl, rfl⟩
    exact ⟨rfl, rfl, rfl, hb, hw, hk, hl⟩
  · rintro ⟨h1, h2, h3, hb, hw, hk, hl⟩
    refine ⟨c.basis_expansion_functions, hb, c.relative_weight, hw,
      c.number_knots, hk, c.link_function, hl, ?_⟩
    cases c
    simp at h1 h2 h3 ⊢
    exact ⟨h1.symm, h2.symm, h3.symm⟩

theorem mem_thinningCombos (g : ParameterGrid) (c : Combo) :
    c ∈ thinningCombos g ↔
      ((∃ i ∈ g.number_of_iterations, c.number_of_iterations = some i)
        ∧ c.spatial_thinning = "THINNING"
        ∧ (∃ d ∈ g.thinning_distance_band, c.thinning_distance_band = some d)
        ∧ c.basis_expansion_functions ∈ g.basis_expansion_functions
        ∧ c.relative_weight ∈ g.relative_weight
        ∧ c.number_knots ∈ g.number_knots
        ∧ c.link_function ∈ g.link_function) := by
  unfold thinningCombos
  simp only [List.mem_flatMap, List.mem_map, List.mem_cons, List.not_mem_nil, or_false,
    List.mem_singleton]
  constructor
  · rintro ⟨i, hi, b, hb, w, hw, k, hk, st, hst, l, hl, d, hd, rfl⟩
    subst hst
    exact ⟨⟨i, hi, rfl⟩, rfl, ⟨d, hd, rfl⟩, hb, hw, hk, hl⟩
  · rintro ⟨⟨i, hi, hci⟩, h2, ⟨d, hd, hcd⟩, hb, hw, hk, hl⟩
    refine ⟨i, hi, c.basis_expansion_functions, hb, c.relative_weight, hw,
      c.number_knots, hk, "THINNING", rfl, c.link_function, hl, d, hd, ?_⟩
    cases c
    simp at h2 hci hcd ⊢
    exact ⟨hci.symm, h2.symm, hcd.symm⟩

/-- C4: parameter combination generation. When the grid's
`spatial_thinning` contains both modes, `getAllCombos` returns the
`NO_THINNING` block (one tuple per element of the product
basis x weight x knots x link, with `None` iterations and distance band)
followed by the full `THINNING` product, with total count
`B*W*K*L + I*B*W*K*L*D`; when only one mode is present, only the matching
block is produced (the full product of all grid values when `NO_THINNING`
is absent). -/
theorem C4_getAllCombos_blocks (g : ParameterGrid) :
    ("NO_THINNING" ∈ g.spatial_thinning → "THINNING" ∈ g.spatial_thinning →
      getAllCombos g = noThinningCombos g ++ thinningCombos g
      ∧ (getAllCombos g).length =
          g.basis_expansion_functions.length * g.relative_weight.length *
            g.number_knots.length * g.link_function.length
          + g.number_of_iterations.length * g.basis_expansion_functions.length *
              g.relative_weight.length * g.number_knots.length *
              g.link_function.length * g.thinning_distance_band.length)
    ∧ ("NO_THINNING" ∈ g.spatial_thinning → "THINNING" ∉ g.spatial_thinning →
      getAllCombos g = noThinningCombos g
      ∧ (getAllCombos g).length =
          g.basis_expansion_functions.length * g.relative_weight.length *
            g.number_knots.length * g.link_function.length)
    ∧ ("NO_THINNING" ∉ g.spatial_thinning →
      getAllCombos g = fullProductCombos g
      ∧ (getAllCombos g).length =
          g.number_of_iterations.length * g.basis_expansion_functions.length *
            g.relative_weight.length * g.number_knots.length *
            g.spatial_thinning.length * g.link_function.length *
            g.thinning_distance_band.length)
    ∧ (∀ c, c ∈ noThinningCombos g ↔
        (c.number_of_iterations = none ∧ c.spatial_thinning = "NO_THINNING"
          ∧ c.thinning_distance_band = none
          ∧ c.basis_expansion_functions ∈ g.basis_expansion_functions
          ∧ c.relative_weight ∈ g.relative_weight
          ∧ c.number_knots ∈ g.number_knots
          ∧ c.link_function ∈ g.link_function))
    ∧ (∀ c, c ∈ thinningCombos g ↔
        ((∃ i ∈ g.number_of_iterations, c.number_of_iterations = some i)
          ∧ c.spatial_thinning = "THINNING"
          ∧ (∃ d ∈ g.thinning_distance_band, c.thinning_distance_band = some d)
          ∧ c.basis_expansion_functions ∈ g.basis_expansion_functions
          ∧ c.relative_weight ∈ g.relative_weight
          ∧ c.number_knots ∈ g.number_knots
          ∧ c.link_function ∈ g.link_function)) := by
  refine ⟨?_, ?_, ?_, mem_noThinningCombos g, mem_thinningCombos g⟩
  · intro h1 h2
    have he : getAllCombos g = noThinningCombos g ++ thinningCombos g := by
      unfold getAllCombos
      simp [h1, h2]
    refine ⟨he, ?_⟩
    rw [he, List.length_append, noThinningCombos_length, thinningCombos_length]
  · intro h1 h2
    have he : getAllCombos g = noThinningCombos g := by
      unfold getAllCombos
      simp [h1, h2]
    refine ⟨he, ?_⟩
    rw [he, noThinningCombos_length]
  · intro h1
    have he : getAllCombos g = fullProductCombos g := by
      unfold getAllCombos
      simp [h1]
    refine ⟨he, ?_⟩
    rw [he, fullProductCombos_length]

/-- Witness for C4 on a concrete grid containing both thinning modes:
`B*W*K*L + I*B*W*K*L*D = 2*1*1*1 + 2*2*1*1*1*1 = 6`. -/
theorem C4_getAllCombos_blocks_witness :
    getAllCombos comboGridExample = noThinningCombos comboGridExample ++ thinningCombos comboGridExample
    ∧ (getAllCombos comboGridExample).length =
        comboGridExample.basis_expansion_functions.length * comboGridExample.relative_weight.length *
          comboGridExample.number_knots.length * comboGridExample.link_function.length
        + comboGridExample.number_of_iterations.length *
            comboGridExample.basis_expansion_functions.length *
            comboGridExample.relative_weight.length * comboGridExample.number_knots.length *
            comboGridExample.link_function.length * comboGridExample.thinning_distance_band.length :=
  (C4_getAllCombos_blocks comboGridExample).1 (by decide) (by decide)

theorem gridStep_skip (env : Combo → List SensRow) (s : String) (st : LoopState)
    (c : Combo) (h : checkModelLogs st.logs (paramsOfCombo c) s = false) :
    gridStep env s st c = st := by
  unfold gridStep
  simp [h]

theorem gridStep_eq_of_check (env : Combo → List SensRow) (s : String) (st : LoopState)
    (c : Combo) (h : checkModelLogs st.logs (paramsOfCombo c) s = true) :
    gridStep env s st c =
      (if flt st.best_evaluation_metric (scoreF1 (env c)) then
        ⟨some c, scoreF1 (env c),
          some ⟨c, scoreF1 (env c), cutoffAtMax (env c)⟩,
          writeLog st.logs (s ++ "_model_log.json")
            (paramsOfCombo c ++ [("f1", PVal.f (scoreF1 (env c))),
              ("cutoff", PVal.f (FVal.val (round2 (cutoffAtMax (env c)))))]),
          st.trained ++ [c], st.pickleWrites + 1⟩
      else
        { st with
            logs := writeLog st.logs (s ++ "_model_log.json")
              (paramsOfCombo c ++ [("f1", PVal.f (scoreF1 (env c))),
                ("cutoff", PVal.f (FVal.val (round2 (cutoffAtMax (env c)))))])
            trained := st.trained ++ [c] }) := by
  unfold gridStep
  simp only [h, if_true]

theorem fmax_neginf_left (h : FVal) : fmax FVal.neginf h = h := by
  cases h <;> simp [fmax, flt]

theorem foldl_fmax_eq_or_mem (l : List FVal) : ∀ a : FVal,
    l.foldl fmax a = a ∨ l.foldl fmax a ∈ l := by
  induction l with
  | nil => intro a; exact Or.inl rfl
  | cons hd tl ih =>
    intro a
    rcases ih (fmax a hd) with h | h
    · rcases fmax_eq_left_or_right a hd with h1 | h1
      · exact Or.inl (by rw [List.foldl_cons, h, h1])
      · exact Or.inr (by rw [List.foldl_cons, h, h1]; exact List.mem_cons_self hd tl)
    · exact Or.inr (List.mem_cons_of_mem hd h)

theorem fle_foldl_fmax_init (l : List FVal) : ∀ a : FVal,
    fle a (l.foldl fmax a) = true := by
  induction l with
  | nil => intro a; exact fle_refl a
  | cons hd tl ih =>
    intro a
    exact fle_trans (fle_fmax_left a hd) (ih (fmax a hd))

theorem fle_foldl_fmax_of_mem (l : List FVal) : ∀ a x : FVal, x ∈ l →
    fle x (l.foldl fmax a) = true := by
  induction l with
  | nil => intro a x hx; cases hx
  | cons hd tl ih =>
    intro a x hx
    rcases List.mem_cons.mp hx with h | h
    · subst h
      exact fle_trans (fle_fmax_right a x) (fle_foldl_fmax_init tl (fmax a x))
    · exact ih (fmax a hd) x h

theorem scoreF1_mem (rows : List SensRow) (h : rows ≠ []) :
    scoreF1 rows ∈ rows.map rowF1 := by
  unfold scoreF1
  cases rows with
  | nil => exact absurd rfl h
  | cons hd tl =>
    simp only [List.map_cons, List.foldl_cons, fmax_neginf_left]
    rcases foldl_fmax_eq_or_mem (tl.map rowF1) (rowF1 hd) with h1 | h1
    · rw [h1]; exact List.mem_cons_self _ _
    · exact List.mem_cons_of_mem _ h1

theorem scoreF1_is_ub (rows : List SensRow) (x : FVal) (hx : x ∈ rows.map rowF1) :
    fle x (scoreF1 rows) = true := by
  unfold scoreF1
  exact fle_foldl_fmax_of_mem (rows.map rowF1) FVal.neginf x hx

theorem gridStep_best_trained (env : Combo → List SensRow) (s : String) (st : LoopState)
    (c : Combo) (b0 : FVal)
    (h : st.best_evaluation_metric
          = (st.trained.map (fun c' => scoreF1 (env c'))).foldl fmax b0) :
    (gridStep env s st c).best_evaluation_metric
      = ((gridStep env s st c).trained.map (fun c' => scoreF1 (env c'))).foldl fmax b0 := by
  by_cases hc : checkModelLogs st.logs (paramsOfCombo c) s = true
  · rw [gridStep_eq_of_check env s st c hc]
    by_cases hf : flt st.best_evaluation_metric (scoreF1 (env c)) = true
    · simp only [hf, if_true, List.map_append, List.foldl_append, List.map_cons,
        List.map_nil, List.foldl_cons, List.foldl_nil, ← h]
      unfold fmax
      rw [if_pos hf]
    · simp only [hf, Bool.false_eq_true, if_false, List.map_append, List.foldl_append,
        List.map_cons, List.map_nil, List.foldl_cons, List.foldl_nil, ← h]
      unfold fmax
      rw [if_neg (by simp [hf])]
  · rw [gridStep_skip env s st c (by simp at hc; exact hc)]
    exact h

theorem runGrid_best_invariant (env : Combo → List SensRow) (s : String)
    (combos : List Combo) : ∀ (st : LoopState) (b0 : FVal),
    st.best_evaluation_metric
        = (st.trained.map (fun c' => scoreF1 (env c'))).foldl fmax b0 →
    (runGrid env s st combos).best_evaluation_metric
        = ((runGrid env s st combos).trained.map (fun c' => scoreF1 (env c'))).foldl fmax b0 := by
  induction combos with
  | nil => intro st b0 h; exact h
  | cons c cs ih =>
    intro st b0 h
    exact ih (gridStep env s st c) b0 (gridStep_best_trained env s st c b0 h)

/-- C1: champion-model selection is F1-based and monotone. The score of a
combination is the maximum F1 over the rows of its sensitivity table; the
champion state is initialised to `0.0`/`None` on a fresh run and to the
cached pickle's f1/combination on resume; a newly run combination replaces
the champion iff its score strictly exceeds the current metric, with the
pickle rewritten exactly then; and after the loop the metric equals the
maximum of the initial value and the scores of all combinations run. -/
theorem C1_champion_selection (env : Combo → List SensRow) (s : String) (logs : LogDir)
    (md : PickleData) (st : LoopState) (c : Combo) (combos : List Combo)
    (cached : Option PickleData) :
    ((gridInit none logs).best_evaluation_metric = FVal.val 0
      ∧ (gridInit none logs).best_combination = none)
    ∧ ((gridInit (some md) logs).best_evaluation_metric = md.f1
      ∧ (gridInit (some md) logs).best_combination = some md.combination)
    ∧ (env c ≠ [] →
        scoreF1 (env c) ∈ (env c).map rowF1
        ∧ ∀ x ∈ (env c).map rowF1, fle x (scoreF1 (env c)) = true)
    ∧ (checkModelLogs st.logs (paramsOfCombo c) s = true →
        ((gridStep env s st c).best_evaluation_metric
            = fmax st.best_evaluation_metric (scoreF1 (env c)))
        ∧ ((gridStep env s st c).best_combination
            = if flt st.best_evaluation_metric (scoreF1 (env c)) then some c
              else st.best_combination)
        ∧ ((gridStep env s st c).pickleWrites
            = st.pickleWrites
              + if flt st.best_evaluation_metric (scoreF1 (env c)) then 1 else 0)
        ∧ ((gridStep env s st c).pickle
            = if flt st.best_evaluation_metric (scoreF1 (env c))
              then some ⟨c, scoreF1 (env c), cutoffAtMax (env c)⟩ else st.pickle))
    ∧ ((runGrid env s (gridInit cached logs) combos).best_evaluation_metric
        = ((runGrid env s (gridInit cached logs) combos).trained.map
            (fun c' => scoreF1 (env c'))).foldl fmax
              (gridInit cached logs).best_evaluation_metric) := by
  refine ⟨⟨rfl, rfl⟩, ⟨rfl, rfl⟩, ?_, ?_, ?_⟩
  · intro h
    exact ⟨scoreF1_mem (env c) h, fun x hx => scoreF1_is_ub (env c) x hx⟩
  · intro h
    rw [gridStep_eq_of_check env s st c h]
    by_cases hf : flt st.best_evaluation_metric (scoreF1 (env c)) = true
    · simp [hf, fmax]
    · simp [hf, fmax]
  · apply runGrid_best_invariant
    cases cached <;> rfl

/-- Witness for C1: a single unlogged combination on a fresh run, scored
`2/3` from a one-row sensitivity table, replaces the initial champion. -/
theorem C1_champion_selection_witness :
    ((fun _ : Combo => [(⟨1/2, 1, 1, 0, 0, 1, 1⟩ : SensRow)])
        (⟨none, "HINGE", 35, 10, "NO_THINNING", "CLOGLOG", none⟩ : Combo)) ≠ []
    ∧ checkModelLogs (gridInit none []).logs
        (paramsOfCombo ⟨none, "HINGE", 35, 10, "NO_THINNING", "CLOGLOG", none⟩) "X" = true
    ∧ (gridStep (fun _ => [⟨1/2, 1, 1, 0, 0, 1, 1⟩]) "X" (gridInit none [])
          ⟨none, "HINGE", 35, 10, "NO_THINNING", "CLOGLOG", none⟩).best_evaluation_metric
        = fmax (gridInit none []).best_evaluation_metric
            (scoreF1 ((fun _ : Combo => [(⟨1/2, 1, 1, 0, 0, 1, 1⟩ : SensRow)])
              ⟨none, "HINGE", 35, 10, "NO_THINNING", "CLOGLOG", none⟩)) := by
  have h := C1_champion_selection (fun _ => [⟨1/2, 1, 1, 0, 0, 1, 1⟩]) "X" []
    ⟨⟨none, "HINGE", 35, 10, "NO_THINNING", "CLOGLOG", none⟩, FVal.val 0, 0⟩
    (gridInit none []) ⟨none, "HINGE", 35, 10, "NO_THINNING", "CLOGLOG", none⟩ [] none
  refine ⟨by simp, rfl, ?_⟩
  exact (h.2.2.2.1 rfl).1

theorem checkEntry_iff (p params : Dict) :
    ((List.all params fun kv => match dictGet p kv.1 with
        | none => true
        | some v => kv.2 == v)
      && (List.all p fun kv => kv.1 == "f1" || kv.1 == "cutoff" || dictHasKey params kv.1))
      = true
    ↔ ((∀ kv ∈ params, ∀ v, dictGet p kv.1 = some v → kv.2 = v)
      ∧ (∀ kv ∈ p, kv.1 = "f1" ∨ kv.1 = "cutoff" ∨ dictHasKey params kv.1 = true)) := by
  rw [Bool.and_eq_true, List.all_eq_true, List.all_eq_true]
  constructor
  · rintro ⟨h1, h2⟩
    refine ⟨fun kv hkv v hv => ?_, fun kv hkv => ?_⟩
    · have hm := h1 kv hkv
      rw [hv] at hm
      simpa using hm
    · have hm := h2 kv hkv
      simp only [Bool.or_eq_true, beq_iff_eq] at hm
      tauto
  · rintro ⟨h1, h2⟩
    refine ⟨fun kv hkv => ?_, fun kv hkv => ?_⟩
    · cases hg : dictGet p kv.1 with
      | none => simp
      | some v => simpa using h1 kv hkv v hg
    · have hm := h2 kv hkv
      simp only [Bool.or_eq_true, beq_iff_eq]
      tauto

theorem checkModelLogs_iff (logs : LogDir) (params : Dict) (s : String) :
    checkModelLogs logs params s = true ↔
      ∀ fc ∈ logs, containsSub fc.1 s = true →
        ∀ p ∈ fc.2, ¬((∀ kv ∈ params, ∀ v, dictGet p kv.1 = some v → kv.2 = v)
          ∧ (∀ kv ∈ p, kv.1 = "f1" ∨ kv.1 = "cutoff" ∨ dictHasKey params kv.1 = true)) := by
  constructor
  · intro h fc hfc hsub p hp hmatch
    have hany : List.any logs
        (fun file => containsSub file.1 s && checkModelParams file.2 params) = true := by
      rw [List.any_eq_true]
      refine ⟨fc, hfc, ?_⟩
      rw [Bool.and_eq_true]
      refine ⟨hsub, ?_⟩
      unfold checkModelParams
      rw [List.any_eq_true]
      exact ⟨p, hp, (checkEntry_iff p params).mpr hmatch⟩
    unfold checkModelLogs at h
    rw [hany] at h
    simp at h
  · intro h
    unfold checkModelLogs
    cases hb : List.any logs
        (fun file => containsSub file.1 s && checkModelParams file.2 params) with
    | false => rfl
    | true =>
      exfalso
      rw [List.any_eq_true] at hb
      obtain ⟨fc, hfc, hcond⟩ := hb
      rw [Bool.and_eq_true] at hcond
      obtain ⟨hsub, hcmp⟩ := hcond
      unfold checkModelParams at hcmp
      rw [List.any_eq_true] at hcmp
      obtain ⟨p, hp, hentry⟩ := hcmp
      exact h fc hfc hsub p hp ((checkEntry_iff p params).mp hentry)

theorem dictGet_self_of_nodup : ∀ (d : Dict), (d.map Prod.fst).Nodup →
    ∀ kv ∈ d, dictGet d kv.1 = some kv.2 := by
  intro d
  induction d with
  | nil => intro _ kv hkv; cases hkv
  | cons hd tl ih =>
    intro hnd kv hkv
    rw [List.map_cons, List.nodup_cons] at hnd
    rcases List.mem_cons.mp hkv with h | h
    · subst h
      unfold dictGet
      rw [List.find?_cons_of_pos _ (by simp)]
      rfl
    · have hne : (hd.1 == kv.1) = false := by
        simp only [beq_eq_false_iff_ne, ne_eq]
        intro he
        apply hnd.1
        rw [he]
        exact List.mem_map_of_mem Prod.fst h
      unfold dictGet
      rw [List.find?_cons_of_neg _ (by simp [hne])]
      exact ih hnd.2 kv h

theorem dictGet_append_left_of_hasKey (d1 d2 : Dict) (k : String)
    (h : dictHasKey d1 k = true) : dictGet (d1 ++ d2) k = dictGet d1 k := by
  unfold dictGet
  rw [List.find?_append]
  unfold dictHasKey at h
  rw [List.any_eq_true] at h
  obtain ⟨kv, hkv, hk⟩ := h
  cases hf : List.find? (fun kv => kv.1 == k) d1 with
  | none =>
    rw [List.find?_eq_none] at hf
    exact absurd hk (by simpa using hf kv hkv)
  | some v => simp [Option.or]

theorem checkModelParams_entry (content : List Dict) (params extras : Dict)
    (hnd : (params.map Prod.fst).Nodup)
    (hextra : ∀ kv ∈ extras, kv.1 = "f1" ∨ kv.1 = "cutoff")
    (hmem : params ++ extras ∈ content) :
    checkModelParams content params = true := by
  unfold checkModelParams
  rw [List.any_eq_true]
  refine ⟨params ++ extras, hmem, ?_⟩
  rw [Bool.and_eq_true, List.all_eq_true, List.all_eq_true]
  constructor
  · intro kv hkv
    have hget : dictGet (params ++ extras) kv.1 = some kv.2 := by
      rw [dictGet_append_left_of_hasKey]
      · exact dictGet_self_of_nodup params hnd kv hkv
      · unfold dictHasKey
        rw [List.any_eq_true]
        exact ⟨kv, hkv, by simp⟩
    rw [hget]
    simp
  · intro kv hkv
    rcases List.mem_append.mp hkv with h | h
    · have hh : dictHasKey params kv.1 = true := by
        unfold dictHasKey
        rw [List.any_eq_true]
        exact ⟨kv, h, by simp⟩
      simp [hh]
    · rcases hextra kv h with h1 | h1 <;> simp [h1]

theorem isPrefixOf_append_self : ∀ (l r : List Char), l.isPrefixOf (l ++ r) = true := by
  intro l r
  induction l with
  | nil => simp [List.isPrefixOf]
  | cons a as ih => simp [List.isPrefixOf, ih]

theorem containsSub_append_left (s t : String) : containsSub (s ++ t) s = true := by
  unfold containsSub
  rw [List.any_eq_true]
  refine ⟨0, ?_, ?_⟩
  · rw [List.mem_range]
    omega
  · rw [List.drop_zero]
    have hta : (s ++ t).toList = s.toList ++ t.toList := by simp [String.toList]
    rw [hta]
    exact isPrefixOf_append_self _ _

theorem writeLog_mem_entry (logs : LogDir) (fname : String) (entry : Dict) :
    ∃ content, (fname, content) ∈ writeLog logs fname entry ∧ entry ∈ content := by
  unfold writeLog
  by_cases h : List.any logs (fun f => f.1 == fname) = true
  · rw [if_pos h]
    rw [List.any_eq_true] at h
    obtain ⟨f0, hf0, heq⟩ := h
    have hfe : f0.1 = fname := by simpa using heq
    refine ⟨logModel entry (some f0.2), ?_, by simp [logModel]⟩
    have himg := List.mem_map_of_mem
      (fun f => if f.1 == fname then (f.1, logModel entry (some f.2)) else f) hf0
    simp only [heq, if_true] at himg
    rw [hfe] at himg
    exact himg
  · rw [if_neg h]
    exact ⟨logModel entry none, by simp, by simp [logModel]⟩

theorem checkModelLogs_false_of_match (logs : LogDir) (params : Dict) (s fname : String)
    (content : List Dict) (hmem : (fname, content) ∈ logs)
    (hsub : containsSub fname s = true)
    (hcmp : checkModelParams content params = true) :
    checkModelLogs logs params s = false := by
  unfold checkModelLogs
  have hany : List.any logs
      (fun file => containsSub file.1 s && checkModelParams file.2 params) = true := by
    rw [List.any_eq_true]
    exact ⟨(fname, content), hmem, by rw [Bool.and_eq_true]; exact ⟨hsub, hcmp⟩⟩
  rw [hany]
  rfl

theorem gridStep_logs_of_check (env : Combo → List SensRow) (s : String) (st : LoopState)
    (c : Combo) (h : checkModelLogs st.logs (paramsOfCombo c) s = true) :
    (gridStep env s st c).logs = writeLog st.logs (s ++ "_model_log.json")
      (paramsOfCombo c ++ [("f1", PVal.f (scoreF1 (env c))),
        ("cutoff", PVal.f (FVal.val (round2 (cutoffAtMax (env c)))))]) := by
  rw [gridStep_eq_of_check env s st c h]
  by_cases hf : flt st.best_evaluation_metric (scoreF1 (env c)) = true
  · simp [hf]
  · simp [hf]

theorem paramsOfCombo_keys_nodup (c : Combo) : ((paramsOfCombo c).map Prod.fst).Nodup := by
  show (["number_of_iterations", "basis_expansion_functions", "relative_weight",
    "number_knots", "spatial_thinning", "link_function",
    "thinning_distance_band"] : List String).Nodup
  decide

theorem gridStep_idem (env : Combo → List SensRow) (s : String) (st : LoopState)
    (c : Combo) (h : checkModelLogs st.logs (paramsOfCombo c) s = true) :
    gridStep env s (gridStep env s st c) c = gridStep env s st c := by
  apply gridStep_skip
  rw [gridStep_logs_of_check env s st c h]
  obtain ⟨content, hmem, hentry⟩ := writeLog_mem_entry st.logs (s ++ "_model_log.json")
    (paramsOfCombo c ++ [("f1", PVal.f (scoreF1 (env c))),
      ("cutoff", PVal.f (FVal.val (round2 (cutoffAtMax (env c)))))])
  refine checkModelLogs_false_of_match _ _ _ _ content hmem
    (containsSub_append_left s "_model_log.json") ?_
  refine checkModelParams_entry content (paramsOfCombo c) _ (paramsOfCombo_keys_nodup c)
    ?_ hentry
  intro kv hkv
  rcases List.mem_cons.mp hkv with h1 | h1
  · subst h1; left; rfl
  · have h2 := List.mem_singleton.mp h1
    subst h2; right; rfl

/-- C2: checkpointing of completed runs. A grid iteration invokes MaxEnt
training, scoring, and log appending for its combination if and only if no
log file for the species already contains an entry whose values equal the
combination's parameters on all shared keys with only `f1` and `cutoff` as
extra keys; consequently, re-running the step over the log state it
produced trains nothing. -/
theorem C2_checkpointing (env : Combo → List SensRow) (s : String) (st : LoopState)
    (c : Combo) :
    ((gridStep env s st c).trained = st.trained ++ [c]
      ↔ checkModelLogs st.logs (paramsOfCombo c) s = true)
    ∧ (checkModelLogs st.logs (paramsOfCombo c) s = true ↔
        ∀ fc ∈ st.logs, containsSub fc.1 s = true →
          ∀ p ∈ fc.2, ¬((∀ kv ∈ paramsOfCombo c, ∀ v, dictGet p kv.1 = some v → kv.2 = v)
            ∧ (∀ kv ∈ p, kv.1 = "f1" ∨ kv.1 = "cutoff"
                ∨ dictHasKey (paramsOfCombo c) kv.1 = true)))
    ∧ (checkModelLogs st.logs (paramsOfCombo c) s = false → gridStep env s st c = st)
    ∧ (checkModelLogs st.logs (paramsOfCombo c) s = true →
        gridStep env s (gridStep env s st c) c = gridStep env s st c) := by
  refine ⟨?_, checkModelLogs_iff st.logs (paramsOfCombo c) s,
    gridStep_skip env s st c, gridStep_idem env s st c⟩
  constructor
  · intro ht
    by_contra hc
    rw [Bool.not_eq_true] at hc
    rw [gridStep_skip env s st c hc] at ht
    have hlen := congrArg List.length ht
    simp at hlen
  · intro h
    rw [gridStep_eq_of_check env s st c h]
    by_cases hf : flt st.best_evaluation_metric (scoreF1 (env c)) = true
    · simp [hf]
    · simp [hf]

/-- Witness for C2: a fresh (empty) log directory, one combination run
twice — the second run changes nothing. -/
theorem C2_checkpointing_witness :
    checkModelLogs (gridInit none []).logs (paramsOfCombo comboExample) "X" = true
    ∧ gridStep envExample "X" (gridStep envExample "X" (gridInit none []) comboExample)
        comboExample
      = gridStep envExample "X" (gridInit none []) comboExample :=
  ⟨rfl, (C2_checkpointing envExample "X" (gridInit none []) comboExample).2.2.2 rfl⟩

/-- C9: per-species frame condition. If the species' trained-features
output name is already among the workspace's feature classes,
`batchMaxEnt` performs no MaxEnt run for that species and leaves its
on-disk state untouched: the log directory, the cached pickle, the list of
trained combinations and the pickle write count are all unchanged. -/
theorem C9_species_skip (env : Combo → List SensRow) (featureClasses : List String)
    (s : String) (g : ParameterGrid) (cached : Option PickleData) (logs : LogDir)
    (h : (s ++ "_NC_Trained_Features") ∈ featureClasses) :
    processSpecies env featureClasses s g cached logs = some (gridInit cached logs, 0)
    ∧ (gridInit cached logs).logs = logs
    ∧ (gridInit cached logs).pickle = cached
    ∧ (gridInit cached logs).trained = []
    ∧ (gridInit cached logs).pickleWrites = 0 := by
  constructor
  · unfold processSpecies
    rw [if_pos h]
  · cases cached <;> exact ⟨rfl, rfl, rfl, rfl⟩

/-- Witness for C9 at a concrete species whose trained features are
already in the workspace. -/
theorem C9_species_skip_witness :
    ("Hairy_Woodpecker" ++ "_NC_Trained_Features")
        ∈ ["Hairy_Woodpecker_NC_Trained_Features"]
    ∧ processSpecies envExample ["Hairy_Woodpecker_NC_Trained_Features"]
        "Hairy_Woodpecker" comboGridExample none []
      = some (gridInit none [], 0) :=
  ⟨by decide, (C9_species_skip envExample ["Hairy_Woodpecker_NC_Trained_Features"]
    "Hairy_Woodpecker" comboGridExample none [] (by decide)).1⟩

theorem fmtChars_chars (s : String) :
    ∀ ch ∈ (fmtChars s).toList, ch ≠ ' ' ∧ ch ≠ '-' ∧ ch ≠ '(' ∧ ch ≠ ')' := by
  intro ch hch
  have hl : (fmtChars s).toList
      = (s.toList.filter (fun c => c != '(' && c != ')')).map
          (fun c => if c = ' ' ∨ c = '-' then '_' else c) := rfl
  rw [hl] at hch
  obtain ⟨c0, hc0, hmap⟩ := List.mem_map.mp hch
  have hfil := List.mem_filter.mp hc0
  have hpar : (c0 != '(') = true ∧ (c0 != ')') = true := by
    have hb := hfil.2
    rwa [Bool.and_eq_true] at hb
  by_cases hc : c0 = ' ' ∨ c0 = '-'
  · rw [if_pos hc] at hmap
    rw [← hmap]
    refine ⟨by decide, by decide, by decide, by decide⟩
  · rw [if_neg hc] at hmap
    subst hmap
    push_neg at hc
    exact ⟨hc.1, hc.2, by simpa using hpar.1, by simpa using hpar.2⟩

theorem fcName_chars (s : String) :
    ∀ ch ∈ ("FW_" ++ fmtChars s ++ "_NC").toList,
      ch ≠ ' ' ∧ ch ≠ '-' ∧ ch ≠ '(' ∧ ch ≠ ')' := by
  intro ch hch
  have hl : ("FW_" ++ fmtChars s ++ "_NC").toList
      = "FW_".toList ++ ((fmtChars s).toList ++ "_NC".toList) := by
    simp [String.toList]
  rw [hl] at hch
  rcases List.mem_append.mp hch with h | h
  · have hfw : "FW_".toList = ['F', 'W', '_'] := rfl
    rw [hfw] at h
    simp only [List.mem_cons, List.not_mem_nil, or_false] at h
    rcases h with rfl | rfl | rfl
    · refine ⟨by decide, by decide, by decide, by decide⟩
    · refine ⟨by decide, by decide, by decide, by decide⟩
    · refine ⟨by decide, by decide, by decide, by decide⟩
  · rcases List.mem_append.mp h with h | h
    · exact fmtChars_chars s ch h
    · have hnc : "_NC".toList = ['_', 'N', 'C'] := rfl
      rw [hnc] at h
      simp only [List.mem_cons, List.not_mem_nil, or_false] at h
      rcases h with rfl | rfl | rfl
      · refine ⟨by decide, by decide, by decide, by decide⟩
      · refine ⟨by decide, by decide, by decide, by decide⟩
      · refine ⟨by decide, by decide, by decide, by decide⟩

/-- C10: the Bird naming invariant. If `bird_name` occurs in the
dataframe's species_name column and splits on `", "` into a part before
and a part after the comma, construction succeeds with `formatted_name`
equal to the post-comma part, an underscore, then the pre-comma part —
with parentheses deleted and spaces and hyphens turned into underscores —
and `fc_name = _prefix + formatted_name + "_NC"`; the resulting default
fc_name contains no space, hyphen, or parenthesis. If the name is absent
from the dataframe, or has no `", "` separator, construction raises
`IndexError` (modelled as `none`). -/
theorem C10_bird_naming (df : List SpeciesRow) (bird_name preComma postComma pre : String) :
    ((∃ r ∈ df, r.species_name = bird_name) →
      birdSplit bird_name = [preComma, postComma] →
      ∃ bd, birdInit df bird_name pre = some bd
        ∧ bd.formatted_name = fmtChars (postComma ++ "_" ++ preComma)
        ∧ bd.fc_name = pre ++ fmtChars (postComma ++ "_" ++ preComma) ++ "_NC")
    ∧ (∀ ch ∈ ("FW_" ++ fmtChars (postComma ++ "_" ++ preComma) ++ "_NC").toList,
        ch ≠ ' ' ∧ ch ≠ '-' ∧ ch ≠ '(' ∧ ch ≠ ')')
    ∧ ((¬ ∃ r ∈ df, r.species_name = bird_name) → birdInit df bird_name pre = none)
    ∧ ((∃ r ∈ df, r.species_name = bird_name) →
        (birdSplit bird_name).length = 1 → birdInit df bird_name pre = none) := by
  refine ⟨?_, fcName_chars (postComma ++ "_" ++ preComma), ?_, ?_⟩
  · rintro ⟨r0, hr0, hname⟩ hsplit
    cases hfil : df.filter (fun r => r.species_name == bird_name) with
    | nil =>
      exfalso
      have hmem : r0 ∈ df.filter (fun r => r.species_name == bird_name) :=
        List.mem_filter.mpr ⟨hr0, by simp [hname]⟩
      rw [hfil] at hmem
      cases hmem
    | cons r rest =>
      have hrmem : r ∈ df.filter (fun r => r.species_name == bird_name) := by
        rw [hfil]
        exact List.mem_cons_self _ _
      have hre : r.species_name = bird_name := by
        have hb := (List.mem_filter.mp hrmem).2
        simpa using hb
      unfold birdInit
      rw [hfil]
      simp only [hre, hsplit]
      exact ⟨_, rfl, rfl, rfl⟩
  · intro h
    have hfil : df.filter (fun r => r.species_name == bird_name) = [] := by
      rw [List.filter_eq_nil_iff]
      intro r hr
      simp only [beq_iff_eq]
      intro he
      exact h ⟨r, hr, he⟩
    unfold birdInit
    rw [hfil]
  · rintro ⟨r0, hr0, hname⟩ hlen
    cases hfil : df.filter (fun r => r.species_name == bird_name) with
    | nil =>
      exfalso
      have hmem : r0 ∈ df.filter (fun r => r.species_name == bird_name) :=
        List.mem_filter.mpr ⟨hr0, by simp [hname]⟩
      rw [hfil] at hmem
      cases hmem
    | cons r rest =>
      have hre : r.species_name = bird_name := by
        have hrmem : r ∈ df.filter (fun r => r.species_name == bird_name) := by
          rw [hfil]
          exact List.mem_cons_self _ _
        have hb := (List.mem_filter.mp hrmem).2
        simpa using hb
      rw [List.length_eq_one] at hlen
      obtain ⟨x, hx⟩ := hlen
      unfold birdInit
      rw [hfil]
      simp only [hre, hx]

/-- Witness for C10 at a concrete dataframe and the name
`"Woodpecker, Downy"`: formatted name `Downy_Woodpecker`, feature class
name `FW_Downy_Woodpecker_NC`. -/
theorem C10_bird_naming_witness :
    (∃ r ∈ birdsExample, r.species_name = "Woodpecker, Downy")
    ∧ birdSplit "Woodpecker, Downy" = ["Woodpecker", "Downy"]
    ∧ ∃ bd, birdInit birdsExample "Woodpecker, Downy" "FW_" = some bd
        ∧ bd.formatted_name = fmtChars ("Downy" ++ "_" ++ "Woodpecker")
        ∧ bd.fc_name = "FW_" ++ fmtChars ("Downy" ++ "_" ++ "Woodpecker") ++ "_NC" := by
  have hocc : ∃ r ∈ birdsExample, r.species_name = "Woodpecker, Downy" :=
    ⟨⟨"dowwoo", "Woodpecker, Downy", "Picidae"⟩, by decide, rfl⟩
  have hsp : birdSplit "Woodpecker, Downy" = ["Woodpecker", "Downy"] := by decide
  exact ⟨hocc, hsp,
    (C10_bird_naming birdsExample "Woodpecker, Downy" "Woodpecker" "Downy" "FW_").1 hocc hsp⟩

/-- C6: relational filtering of the tabular dataset. Every row of the
dataframe returned by `clean_fw_data` originates in a source row with
`valid == 1`, `plus_code != 1`, `species_code` in `birds.species_code`,
and — whenever `sub_national_code` is not `None` — `subnational1_code` in
`sub_national_code`; the output rows carry exactly the `out_names`
columns (the `CleanRow` fields, in order, via `mkCleanRow`) and the
result is sorted ascending by date then species_name. -/
theorem C6_clean_filters (data : List FWRow) (birds : List SpeciesRow)
    (sub : Option (List String)) :
    (∀ row ∈ clean_fw_data data birds sub,
      ∃ src ∈ data,
        src.valid = some 1
        ∧ src.plus_code ≠ some 1
        ∧ (∃ b ∈ birds, src.species_code = some b.species_code)
        ∧ (∀ codes, sub = some codes → ∃ c, src.subnational1_code = some c ∧ c ∈ codes)
        ∧ (∃ nm, row = mkCleanRow src nm))
    ∧ List.Sorted rowLe (clean_fw_data data birds sub) := by
  constructor
  · intro row hrow
    unfold clean_fw_data at hrow
    rw [(List.perm_insertionSort rowLe _).mem_iff] at hrow
    rw [List.mem_flatMap] at hrow
    obtain ⟨r, hrloc, hrin⟩ := hrow
    have hfil : r ∈ data.filter (fun r => validFilter r birds)
        ∧ (∀ codes, sub = some codes →
            ∃ c, r.subnational1_code = some c ∧ c ∈ codes) := by
      cases sub with
      | none =>
        refine ⟨hrloc, ?_⟩
        intro codes h
        cases h
      | some codes =>
        have h2 := List.mem_filter.mp hrloc
        refine ⟨h2.1, ?_⟩
        intro codes' hc
        injection hc with hc
        subst hc
        have hb := h2.2
        cases hsc : r.subnational1_code with
        | none =>
          rw [hsc] at hb
          simp at hb
        | some c =>
          rw [hsc] at hb
          refine ⟨c, rfl, ?_⟩
          simpa using hb
    have hvf := List.mem_filter.mp hfil.1
    have hv := hvf.2
    unfold validFilter at hv
    rw [Bool.and_eq_true, Bool.and_eq_true] at hv
    obtain ⟨⟨hval, hplus⟩, hsp⟩ := hv
    refine ⟨r, hvf.1, ?_, ?_, ?_, hfil.2, ?_⟩
    · cases hva : r.valid with
      | none =>
        rw [hva] at hval
        simp at hval
      | some v =>
        rw [hva] at hval
        simp only [beq_iff_eq] at hval
        rw [hval]
    · cases hpc : r.plus_code with
      | none => simp
      | some v =>
        rw [hpc] at hplus
        simp only [bne_iff_ne, ne_eq] at hplus
        intro he
        injection he with he
        exact hplus he
    · cases hsc : r.species_code with
      | none =>
        rw [hsc] at hsp
        simp at hsp
      | some cd =>
        rw [hsc] at hsp
        rw [List.any_eq_true] at hsp
        obtain ⟨b, hb, hbe⟩ := hsp
        refine ⟨b, hb, ?_⟩
        simp only [beq_iff_eq] at hbe
        rw [hbe]
    · by_cases hms : (birds.filter (fun b =>
          match r.species_code with
          | some cd => b.species_code == cd
          | none => false)).isEmpty = true
      · rw [if_pos hms] at hrin
        exact ⟨none, by simpa using hrin⟩
      · rw [if_neg hms] at hrin
        obtain ⟨b, _, hb⟩ := List.mem_map.mp hrin
        exact ⟨some b.species_name, hb.symm⟩
  · unfold clean_fw_data
    exact List.sorted_insertionSort rowLe _

/-- Witness for C6 at a concrete valid observation that survives every
filter. -/
theorem C6_clean_filters_witness :
    (mkCleanRow fwRowExample (some "Woodpecker, Downy"))
        ∈ clean_fw_data [fwRowExample] birdsExample none
    ∧ ∃ src ∈ [fwRowExample],
        src.valid = some 1
        ∧ src.plus_code ≠ some 1
        ∧ (∃ b ∈ birdsExample, src.species_code = some b.species_code)
        ∧ (∀ codes, (none : Option (List String)) = some codes →
            ∃ c, src.subnational1_code = some c ∧ c ∈ codes)
        ∧ (∃ nm, mkCleanRow fwRowExample (some "Woodpecker, Downy") = mkCleanRow src nm) := by
  have hout : clean_fw_data [fwRowExample] birdsExample none
      = [mkCleanRow fwRowExample (some "Woodpecker, Downy")] := by rfl
  have hmem : (mkCleanRow fwRowExample (some "Woodpecker, Downy"))
      ∈ clean_fw_data [fwRowExample] birdsExample none := by
    rw [hout]
    exact List.mem_singleton.mpr rfl
  exact ⟨hmem, (C6_clean_filters [fwRowExample] birdsExample none).1 _ hmem⟩

/-- C8: the location filter's default. Calling `clean_fw_data` with the
default `sub_national_code` argument — the empty list, `some []` — keeps
only rows whose subnational1_code is a member of the empty list, so the
result is empty for every input; location filtering is disabled only by
passing `None` (`none`), not by omitting the argument. -/
theorem C8_default_location_empty (data : List FWRow) (birds : List SpeciesRow) :
    clean_fw_data data birds (some []) = [] := by
  simp only [clean_fw_data]
  have hloc : (data.filter (fun r => validFilter r birds)).filter (fun r =>
      match r.subnational1_code with
      | some c => List.contains [] c
      | none => false) = [] := by
    rw [List.filter_eq_nil_iff]
    intro r _
    cases hsc : r.subnational1_code with
    | none => simp
    | some c => simp [List.contains]
  rw [hloc]
  rfl

theorem fwFold_spec (env : String → List FWRow)
    (tfFile : String → Option (List CleanRow)) (birds : List SpeciesRow)
    (sub : Option (List String)) (save_ : Bool) :
    ∀ (tfs : List String) (acc : FWAcc),
      (∀ x ∈ acc.2.1, x ∈ (tfs.foldl (fwStep env tfFile birds sub save_) acc).2.1)
      ∧ (∀ tf ∈ acc.2.2, tf ∈ (tfs.foldl (fwStep env tfFile birds sub save_) acc).2.2)
      ∧ (∀ tf ∈ tfs, tfFile tf = none →
          (save_ = true → (tf, clean_fw_data (env tf) birds sub)
              ∈ (tfs.foldl (fwStep env tfFile birds sub save_) acc).2.1)
          ∧ tf ∈ (tfs.foldl (fwStep env tfFile birds sub save_) acc).2.2)
      ∧ (∀ tf, tf ∈ (tfs.foldl (fwStep env tfFile birds sub save_) acc).2.2 →
          tf ∈ acc.2.2 ∨ tfFile tf = none) := by
  intro tfs
  induction tfs with
  | nil =>
    intro acc
    exact ⟨fun x hx => hx, fun tf h => h,
      fun tf h => absurd h (List.not_mem_nil tf), fun tf h => Or.inl h⟩
  | cons tf0 rest ih =>
    intro acc
    rw [List.foldl_cons]
    obtain ⟨ih1, ih2, ih3, ih4⟩ := ih (fwStep env tfFile birds sub save_ acc tf0)
    have hsub1 : ∀ x ∈ acc.2.1, x ∈ (fwStep env tfFile birds sub save_ acc tf0).2.1 := by
      intro x hx
      cases h0 : tfFile tf0 with
      | none => simp [fwStep, h0, hx]
      | some c => simp [fwStep, h0, hx]
    have hsub2 : ∀ t ∈ acc.2.2, t ∈ (fwStep env tfFile birds sub save_ acc tf0).2.2 := by
      intro t ht
      cases h0 : tfFile tf0 with
      | none => simp [fwStep, h0, ht]
      | some c => simp [fwStep, h0, ht]
    refine ⟨fun x hx => ih1 x (hsub1 x hx), fun t ht => ih2 t (hsub2 t ht), ?_, ?_⟩
    · intro tf htf hnone
      rcases List.mem_cons.mp htf with rfl | hmem
      · constructor
        · intro hs
          apply ih1
          simp [fwStep, hnone, hs]
        · apply ih2
          simp [fwStep, hnone]
      · exact ⟨fun hs => (ih3 tf hmem hnone).1 hs, (ih3 tf hmem hnone).2⟩
    · intro tf htf
      rcases ih4 tf htf with h | h
      · cases h0 : tfFile tf0 with
        | none =>
          rw [fwStep, h0] at h
          simp only [List.mem_append, List.mem_singleton] at h
          rcases h with h | h
          · exact Or.inl h
          · subst h
            exact Or.inr h0
        | some c =>
          rw [fwStep, h0] at h
          exact Or.inl h
      · exact Or.inr h

/-- Counterexample to C7 as stated: with `save_ = False`, on a run where
the final output file does not exist, a timeframe is queried (it appears
in `downloaded`) yet no per-timeframe gzipped csv is written (`savedTf`
is empty) — so "each per-timeframe query is saved to a gzipped csv" fails
and on a later run that timeframe would be re-downloaded. -/
theorem C7_counterexample :
    (getFeedWatcherData (fun _ => [fwRowExample]) (fun _ => none) none
        ["2016_2020"] birdsExample none false 2017 2019).downloaded = ["2016_2020"]
    ∧ (getFeedWatcherData (fun _ => [fwRowExample]) (fun _ => none) none
        ["2016_2020"] birdsExample none false 2017 2019).savedTf = [] :=
  ⟨rfl, rfl⟩

/-- C7 (amended): date filtering and download caching, with the saving of
per-timeframe queries conditional on `save_` being true (its default).
When the final output file does not exist, every returned row has
`min_year <= date.year <= max_year`; when `save_` is true, each
per-timeframe query not already cached is saved to its gzipped csv; only
timeframes without a cached file are downloaded (a cached timeframe is
read from its file instead); when the final output file exists, it is
read and returned directly with no downloading, saving, or
re-filtering. -/
theorem C7_download_caching (env : String → List FWRow)
    (tfFile : String → Option (List CleanRow)) (finalFile : Option (List CleanRow))
    (tfs : List String) (birds : List SpeciesRow) (sub : Option (List String))
    (save_ : Bool) (min_year max_year : ℕ) :
    (finalFile = none →
      (∀ r ∈ (getFeedWatcherData env tfFile finalFile tfs birds sub save_
          min_year max_year).out,
        min_year ≤ r.date.year ∧ r.date.year ≤ max_year)
      ∧ (∀ tf ∈ tfs, tfFile tf = none →
          (save_ = true → (tf, clean_fw_data (env tf) birds sub)
              ∈ (getFeedWatcherData env tfFile finalFile tfs birds sub save_
                  min_year max_year).savedTf)
          ∧ tf ∈ (getFeedWatcherData env tfFile finalFile tfs birds sub save_
              min_year max_year).downloaded)
      ∧ (∀ tf, tf ∈ (getFeedWatcherData env tfFile finalFile tfs birds sub save_
            min_year max_year).downloaded → tfFile tf = none))
    ∧ (∀ content, finalFile = some content →
        getFeedWatcherData env tfFile finalFile tfs birds sub save_
            min_year max_year = ⟨content, [], none, []⟩) := by
  constructor
  · intro hf
    subst hf
    obtain ⟨h1, h2, h3, h4⟩ := fwFold_spec env tfFile birds sub save_ tfs ([], [], [])
    refine ⟨?_, ?_, ?_⟩
    · intro r hr
      have hr1 := List.mem_filter.mp hr
      have hr2 := List.mem_filter.mp hr1.1
      exact ⟨of_decide_eq_true hr2.2, of_decide_eq_true hr1.2⟩
    · intro tf htf hn
      exact ⟨fun hs => (h3 tf htf hn).1 hs, (h3 tf htf hn).2⟩
    · intro tf htf
      rcases h4 tf htf with h | h
      · cases h
      · exact h
  · intro content hf
    subst hf
    rfl

/-- Witness for C7 (amended) at a concrete run: no final file, one
uncached timeframe, `save_ = true` — the query is downloaded and its
cleaned result saved. -/
theorem C7_download_caching_witness :
    (none : Option (List CleanRow)) = none
    ∧ "2016_2020" ∈ ["2016_2020"]
    ∧ (fun _ : String => (none : Option (List CleanRow))) "2016_2020" = none
    ∧ ("2016_2020",
        clean_fw_data ((fun _ => [fwRowExample]) "2016_2020") birdsExample none)
        ∈ (getFeedWatcherData (fun _ => [fwRowExample]) (fun _ => none) none
            ["2016_2020"] birdsExample none true 2017 2019).savedTf
    ∧ "2016_2020" ∈ (getFeedWatcherData (fun _ => [fwRowExample]) (fun _ => none) none
        ["2016_2020"] birdsExample none true 2017 2019).downloaded := by
  have h := (C7_download_caching (fun _ => [fwRowExample]) (fun _ => none) none
    ["2016_2020"] birdsExample none true 2017 2019).1 rfl
  have h2 := h.2.1 "2016_2020" (List.mem_singleton.mpr rfl) rfl
  exact ⟨rfl, List.mem_singleton.mpr rfl, rfl, h2.1 rfl, h2.2⟩

end WoodpeckerNC
